import Mathlib

/-!
Shallow embedding of the data-loading layer in `src/data_loader.py`: loaders
for fuel prices, storage and plant capacities, efficiency rates and
electricity demand, with date-window slicing and calendar-month resampling.
-/

set_option maxHeartbeats 1000000

namespace DataLoader

/-- Leap-year test of the Gregorian calendar, as used by pandas timestamps. -/
def isLeap (y : Nat) : Bool :=
  y % 4 == 0 && (y % 100 != 0 || y % 400 == 0)

/-- Number of days of month `m` of year `y`. -/
def daysInMonth (y m : Nat) : Nat :=
  if m = 2 then (if isLeap y then 29 else 28)
  else if m = 4 ∨ m = 6 ∨ m = 9 ∨ m = 11 then 30
  else 31

/-- Timezone-naive timestamp at hourly resolution, the granularity the claims
exercise: date windows, the month-end plus 23 hours bound, hourly demand
rows. -/
structure Ts where
  year : Nat
  month : Nat
  day : Nat
  hour : Nat
  deriving DecidableEq, Repr

/-- Linearization key of a timestamp; on in-range fields (month 1 to 12, day
1 to 31, hour 0 to 23) it orders timestamps chronologically. -/
def Ts.toNat (t : Ts) : Nat :=
  ((t.year * 13 + t.month) * 32 + t.day) * 24 + t.hour

/-- Boolean order used for window slicing. -/
def Ts.leb (a b : Ts) : Bool := decide (a.toNat ≤ b.toNat)

/-- Strict boolean order on timestamps. -/
def Ts.ltb (a b : Ts) : Bool := decide (a.toNat < b.toNat)

/-- Field ranges of a real calendar timestamp. -/
def validTs (t : Ts) : Prop :=
  1 ≤ t.month ∧ t.month ≤ 12 ∧ 1 ≤ t.day ∧ t.day ≤ daysInMonth t.year t.month ∧ t.hour ≤ 23

instance (t : Ts) : Decidable (validTs t) := by
  unfold validTs; infer_instance

/-- Successor day, rolling over month and year boundaries. -/
def Ts.nextDay (t : Ts) : Ts :=
  if t.day < daysInMonth t.year t.month then ⟨t.year, t.month, t.day + 1, t.hour⟩
  else if t.month < 12 then ⟨t.year, t.month + 1, 1, t.hour⟩
  else ⟨t.year + 1, 1, 1, t.hour⟩

/-- Day-stepping, iterated. -/
def Ts.addDays : Nat → Ts → Ts
  | 0, t => t
  | n + 1, t => Ts.addDays n t.nextDay

/-- Add `n` hours, carrying into later days. -/
def Ts.addHours (n : Nat) (t : Ts) : Ts :=
  Ts.addDays ((t.hour + n) / 24) ⟨t.year, t.month, t.day, (t.hour + n) % 24⟩

/-- pandas `MonthEnd(1)`: when the day is already the last of its month the
anchor rolls to the end of the next month, otherwise to the end of the
current month; the time of day is preserved. -/
def monthEnd1 (t : Ts) : Ts :=
  if t.day = daysInMonth t.year t.month then
    if t.month = 12 then ⟨t.year + 1, 1, 31, t.hour⟩
    else ⟨t.year, t.month + 1, daysInMonth t.year (t.month + 1), t.hour⟩
  else ⟨t.year, t.month, daysInMonth t.year t.month, t.hour⟩

/-- Effective upper bound applied to an explicit end argument, from the source:
`pd.to_datetime(end) + pd.offsets.MonthEnd(1) + pd.offsets.Hour(23)`. -/
def endBound (e : Ts) : Ts := Ts.addHours 23 (monthEnd1 e)

/-- Index of the calendar month of `t` on the month axis. -/
def monthIdx (t : Ts) : Nat := t.year * 12 + (t.month - 1)

/-- Month-end timestamp (midnight) of the month with index `i`. -/
def monthEndOf (i : Nat) : Ts :=
  ⟨i / 12, i % 12 + 1, daysInMonth (i / 12) (i % 12 + 1), 0⟩

/-- Lower-casing of a column name, as python lower() acts on the ASCII names
the files use. -/
def strLower (s : String) : String := ⟨s.data.map Char.toLower⟩

/-- Whitespace stripping from both ends of a name, as python strip(). -/
def strTrim (s : String) : String :=
  ⟨((s.data.dropWhile Char.isWhitespace).reverse.dropWhile Char.isWhitespace).reverse⟩

/-- Raw cell of a parsed CSV table: either a value that numeric coercion
parses as a number, or text that fails numeric coercion. -/
inductive Cell where
  | num (q : ℚ)
  | text (s : String)
  deriving DecidableEq, Repr

/-- Numeric coercion with pandas coerce-errors mode: non-numeric cells become
missing (`none`), never an error. -/
def Cell.toNum : Cell → Option ℚ
  | .num q => some q
  | .text _ => none

/-- python dict assignment: update in place when the key is present (keeping
the first insertion position), otherwise append. -/
def dictInsert {α β : Type} [DecidableEq α] (m : List (α × β)) (k : α) (v : β) :
    List (α × β) :=
  if m.any (fun p => decide (p.1 = k)) then
    m.map (fun p => if p.1 = k then (k, v) else p)
  else m ++ [(k, v)]

/-- python dict built from a sequence of pairs, folded left to right. -/
def dictOfPairs {α β : Type} [DecidableEq α] (ps : List (α × β)) : List (α × β) :=
  ps.foldl (fun m p => dictInsert m p.1 p.2) []

/-- Mapping lookup. -/
def dictGet {α β : Type} [DecidableEq α] (m : List (α × β)) (k : α) : Option β :=
  (m.find? (fun p => decide (p.1 = k))).map (fun p => p.2)

/-- Value of the last pair carrying key `k`, stated directly on the pair list
in file order; the reference point for last-occurrence-wins claims. -/
def lookupLast {α β : Type} [DecidableEq α] (ps : List (α × β)) (k : α) : Option β :=
  (ps.reverse.find? (fun p => decide (p.1 = k))).map (fun p => p.2)

/-- Resampling rule: the bucket label of a raw timestamp, and the full run of
bucket labels the resampler materializes between two data timestamps (pandas
emits intermediate empty buckets too). -/
structure Rule where
  label : Ts → Ts
  labels : Ts → Ts → List Ts

/-- pandas month-end rule, the default of both time-series loaders: a row is
bucketed by its calendar month and the bucket is labeled by the month-end
date at midnight. -/
def ruleME : Rule where
  label := fun t => monthEndOf (monthIdx t)
  labels := fun a b =>
    (List.range (monthIdx b + 1 - monthIdx a)).map (fun k => monthEndOf (monthIdx a + k))

/-- Mean of the non-missing values; `none` when no value contributes (pandas
mean of an empty or all-missing bucket is missing). -/
def meanOpt (l : List ℚ) : Option ℚ :=
  if l.length = 0 then none else some (l.sum / (l.length : ℚ))

/-- Parsed time-series CSV after reading with the first column parsed as
dates and set as index: the header names of the non-date columns, and one row
per line holding the parsed timestamp and the remaining cells. -/
structure Table where
  header : List String
  rows : List (Ts × List Cell)
  deriving DecidableEq, Repr

/-- Two-argument minimum on timestamps. -/
def minF (u v : Ts) : Ts := if v.toNat < u.toNat then v else u

/-- Two-argument maximum on timestamps. -/
def maxF (u v : Ts) : Ts := if u.toNat < v.toNat then v else u

/-- Minimum of the datetime index. -/
def minTs : List Ts → Option Ts
  | [] => none
  | x :: xs => some (xs.foldl minF x)

/-- Maximum of the datetime index. -/
def maxTs : List Ts → Option Ts
  | [] => none
  | x :: xs => some (xs.foldl maxF x)

/-- Error kinds raised by the loaders; `formatError` carries the message
payload (missing columns, or the available-column sample). -/
inductive Err where
  | formatError (info : List String)
  | rangeError
  | emptyResultError
  deriving DecidableEq, Repr

/-- Resolved lower bound: the explicit start when given, else the minimum
timestamp of the file. -/
def resolveStart (t : Table) : Option Ts → Option Ts
  | some s => some s
  | none => minTs (t.rows.map (fun r => r.1))

/-- Resolved upper bound: `endBound` of the explicit end when given, else the
maximum timestamp of the file. -/
def resolveEnd (t : Table) : Option Ts → Option Ts
  | some e => some (endBound e)
  | none => maxTs (t.rows.map (fun r => r.1))

/-- Membership of a timestamp in the inclusive resolved window. -/
def inWindow (s e x : Ts) : Bool := Ts.leb s x && Ts.leb x e

/-- Result of `load_prices`: normalized column names and, per bucket label,
the per-column aggregated value (missing when no raw value contributes). -/
structure PriceFrame where
  cols : List String
  values : List (Ts × List (Option ℚ))
  deriving DecidableEq, Repr

/-- Column-name normalization of `load_prices`: strip then lower-case. -/
def normalizePriceCol (c : String) : String := strLower (strTrim c)

/-- Required price columns, in the sorted order the error message uses. -/
def requiredPriceCols : List String := ["coal", "gas", "oil"]

/-- Mean-resampling of the sliced rows: one entry per bucket label between the
first and last sliced timestamp, each column averaged over its non-missing
values in the bucket. -/
def resampleMean (rule : Rule) (ncols : Nat) (sliced : List (Ts × List (Option ℚ))) :
    List (Ts × List (Option ℚ)) :=
  match minTs (sliced.map (fun r => r.1)), maxTs (sliced.map (fun r => r.1)) with
  | some a, some b =>
    (rule.labels a b).map (fun L =>
      (L, (List.range ncols).map (fun j =>
        meanOpt ((sliced.filter (fun r => decide (rule.label r.1 = L))).filterMap
          (fun r => r.2.getD j none)))))
  | _, _ => []

/-- Embedding of `load_prices`. -/
def loadPrices (t : Table) (start? end? : Option Ts) (rule : Rule) :
    Except Err PriceFrame :=
  if t.header.length < 1 then
    .error (.formatError ["CSV must contain a date column plus at least the fuel columns."])
  else
    if requiredPriceCols.filter (fun r => ! (t.header.map normalizePriceCol).contains r) = [] then
      match resolveStart t start?, resolveEnd t end? with
      | some s, some e =>
        if Ts.ltb e s then .error .rangeError
        else
          if (t.rows.map (fun r => (r.1, r.2.map Cell.toNum))).filter
              (fun r => inWindow s e r.1) = [] then .error .emptyResultError
          else
            .ok ⟨t.header.map normalizePriceCol,
              resampleMean rule (t.header.map normalizePriceCol).length
                ((t.rows.map (fun r => (r.1, r.2.map Cell.toNum))).filter
                  (fun r => inWindow s e r.1))⟩
      | _, _ => .error .emptyResultError
    else
      .error (.formatError
        (requiredPriceCols.filter (fun r => ! (t.header.map normalizePriceCol).contains r)))

/-- Key normalization of the case-insensitive zone lookup of `load_demand`:
lower-case then strip. -/
def normalizeKey (c : String) : String := strTrim (strLower c)

/-- Case-insensitive column map of `load_demand`: normalized name to original
name, later columns overwriting earlier ones on collision. -/
def colMapOf (t : Table) : List (String × String) :=
  dictOfPairs (t.header.map (fun c => (normalizeKey c, c)))

/-- Original-case column selected for a requested zone. -/
def selCol (t : Table) (zone : String) : Option String :=
  dictGet (colMapOf t) (normalizeKey zone)

/-- Position of the selected column among the non-date columns. -/
def selIdx (t : Table) (c : String) : Nat := t.header.findIdx (fun x => x == c)

/-- Coerced numeric value of column `j` of a row. -/
def cellAt (j : Nat) (r : Ts × List Cell) : Option ℚ := (r.2.getD j (Cell.text "")).toNum

/-- Sample of available column names put into the unknown-zone error message:
the first 20 names, with an ellipsis marker when more exist. -/
def availableSample (cols : List String) : List String :=
  cols.take 20 ++ (if 20 < cols.length then ["..."] else [])

/-- Result of `load_demand`: the selected column in its original case and the
scaled per-bucket sums. -/
structure DemandFrame where
  colName : String
  values : List (Ts × ℚ)
  deriving DecidableEq, Repr

/-- Sum-resampling of the sliced zone column: one entry per bucket label
between the first and last sliced timestamp, missing values excluded from the
sum, so an all-missing bucket sums to 0. -/
def resampleSum (rule : Rule) (sliced : List (Ts × Option ℚ)) : List (Ts × ℚ) :=
  match minTs (sliced.map (fun r => r.1)), maxTs (sliced.map (fun r => r.1)) with
  | some a, some b =>
    (rule.labels a b).map (fun L =>
      (L, ((sliced.filter (fun r => decide (rule.label r.1 = L))).filterMap
        (fun r => r.2)).sum))
  | _, _ => []

/-- Embedding of `load_demand`. -/
def loadDemand (t : Table) (start? end? : Option Ts) (rule : Rule) (zone : String)
    (supplyFactor : ℚ) : Except Err DemandFrame :=
  if t.header.length < 1 then
    .error (.formatError ["CSV must contain a timestamp column plus at least one zone column."])
  else
    match selCol t zone with
    | none => .error (.formatError (availableSample t.header))
    | some c =>
      match resolveStart t start?, resolveEnd t end? with
      | some s, some e =>
        if Ts.ltb e s then .error .rangeError
        else
          if (t.rows.map (fun r => (r.1, cellAt (selIdx t c) r))).filter
              (fun r => inWindow s e r.1) = [] then .error .emptyResultError
          else
            .ok ⟨c, (resampleSum rule ((t.rows.map (fun r => (r.1, cellAt (selIdx t c) r))).filter
              (fun r => inWindow s e r.1))).map (fun p => (p.1, p.2 * supplyFactor))⟩
      | _, _ => .error .emptyResultError

/-- Parsed flat CSV of an attribute-map loader: header names and raw rows. -/
structure AttrTable where
  cols : List String
  rows : List (List Cell)
  deriving DecidableEq, Repr

/-- Column extraction by exact name: the cells under the first column carrying
that name. -/
def getColumn (t : AttrTable) (name : String) : List Cell :=
  match t.cols.findIdx? (fun x => x == name) with
  | some i => t.rows.map (fun r => r.getD i (Cell.text ""))
  | none => []

/-- python dict of the two named columns zipped row-wise in file order. -/
def zipDict (t : AttrTable) (a b : String) : List (Cell × Cell) :=
  dictOfPairs ((getColumn t a).zip (getColumn t b))

/-- Embedding of `load_storage`. -/
def loadStorage (t : AttrTable) : Except Err (List (Cell × Cell)) :=
  if t.cols.contains "fuel" && t.cols.contains "capacity" then
    .ok (zipDict t "fuel" "capacity")
  else .error (.formatError ["fuel", "capacity"])

/-- Embedding of `load_efficiency`. -/
def loadEfficiency (t : AttrTable) : Except Err (List (Cell × Cell)) :=
  if t.cols.contains "fuel" && t.cols.contains "efficiency" then
    .ok (zipDict t "fuel" "efficiency")
  else .error (.formatError ["fuel", "efficiency"])

/-- Embedding of `load_plant_capacity`. -/
def loadPlantCapacity (t : AttrTable) : Except Err (List (Cell × Cell)) :=
  if t.cols.contains "fuel" && t.cols.contains "capacity" then
    .ok (zipDict t "fuel" "capacity")
  else .error (.formatError ["fuel", "capacity"])


/-! ### Concrete instances used by the claim witnesses and counterexamples -/

/-- Concrete demand table for claim C1: a January row and a February row. -/
def tableC1 : Table :=
  ⟨["DK_2"], [(⟨2024, 1, 31, 23⟩, [.num 1]), (⟨2024, 2, 10, 0⟩, [.num 2])]⟩

/-- Frame returned by `load_demand` on `tableC1` with end 2024-01-31. -/
def frameC1 : DemandFrame :=
  match loadDemand tableC1 none (some ⟨2024, 1, 31, 0⟩) ruleME "DK_2" (1 / 2) with
  | .ok f => f
  | .error _ => ⟨"", []⟩

/-- Concrete demand table for claim C2: two January rows, one unparseable, and
a February row. -/
def tableC2 : Table :=
  ⟨["DK_2"], [(⟨2024, 1, 10, 0⟩, [.num 3]), (⟨2024, 1, 20, 0⟩, [.text "bad"]),
    (⟨2024, 2, 5, 0⟩, [.num 5])]⟩

/-- Frame returned by `load_demand` on `tableC2` over the full range. -/
def frameC2 : DemandFrame :=
  match loadDemand tableC2 none none ruleME "DK_2" (1 / 2) with
  | .ok f => f
  | .error _ => ⟨"", []⟩

/-- First bucket of `frameC2`. -/
def pairC2 : Ts × ℚ := frameC2.values.get ⟨0, by decide⟩

/-- Concrete price table for claim C3: a single mid-March row. -/
def tableC3 : Table :=
  ⟨["coal", "gas", "oil"], [(⟨2024, 3, 10, 0⟩, [.num 1, .num 2, .num 3])]⟩

/-- Frame returned by `load_prices` on `tableC3` over the full range. -/
def frameC3 : PriceFrame :=
  match loadPrices tableC3 none none ruleME with
  | .ok f => f
  | .error _ => ⟨[], []⟩

/-- Single bucket of `frameC3`. -/
def pairC3 : Ts × List (Option ℚ) := frameC3.values.get ⟨0, by decide⟩

/-- Concrete demand table for claim C4: one zone column with surrounding
whitespace and upper case. -/
def tableC4 : Table := ⟨[" DK_2 "], [(⟨2024, 1, 1, 0⟩, [.num 7])]⟩

/-- Frame returned by `load_demand` on `tableC4` for zone dk_2. -/
def frameC4 : DemandFrame :=
  match loadDemand tableC4 none none ruleME "dk_2" (1 / 2) with
  | .ok f => f
  | .error _ => ⟨"", []⟩

/-- Concrete demand table for claim C4 with no matching zone column. -/
def tableC4b : Table := ⟨["SE_1"], [(⟨2024, 1, 1, 0⟩, [.num 7])]⟩

/-- Concrete storage table of the C5 example rows. -/
def attrC5 : AttrTable :=
  ⟨["fuel", "capacity"],
    [[.text "coal", .num 10], [.text "gas", .num 20], [.text "coal", .num 15]]⟩

/-- Mapping returned by `load_storage` on `attrC5`. -/
def dictC5 : List (Cell × Cell) :=
  match loadStorage attrC5 with
  | .ok d => d
  | .error _ => []

/-- Concrete price table for claim C6: an extra Lignite column and two cells
that fail numeric coercion. -/
def tableC6 : Table :=
  ⟨["coal", "gas", "oil", " Lignite "],
    [(⟨2024, 1, 5, 0⟩, [.num 1, .text "n/a", .num 3, .num 9]),
     (⟨2024, 1, 20, 0⟩, [.num 2, .num 4, .text "x", .num 11])]⟩

/-- Frame returned by `load_prices` on `tableC6`. -/
def frameC6 : PriceFrame :=
  match loadPrices tableC6 none none ruleME with
  | .ok f => f
  | .error _ => ⟨[], []⟩

/-- Concrete price table missing only the oil column, for claim C7. -/
def tableC7 : Table := ⟨["coal", "gas"], [(⟨2024, 1, 1, 0⟩, [.num 1, .num 2])]⟩

/-- Concrete price table with one June row, for claims C8 and C9. -/
def tableC8 : Table :=
  ⟨["coal", "gas", "oil"], [(⟨2024, 6, 1, 0⟩, [.num 1, .num 2, .num 3])]⟩

/-- Concrete demand table for claim C10: an all-missing January bucket and a
February row. -/
def tableC10 : Table :=
  ⟨["DK_2"], [(⟨2024, 1, 10, 0⟩, [.text "x"]), (⟨2024, 2, 10, 0⟩, [.num 4])]⟩

/-- Frame returned by `load_demand` on `tableC10` over the full range. -/
def frameC10 : DemandFrame :=
  match loadDemand tableC10 none none ruleME "DK_2" (1 / 2) with
  | .ok f => f
  | .error _ => ⟨"", []⟩

/-- First bucket of `frameC10` (the all-missing January bucket). -/
def pairC10 : Ts × ℚ := frameC10.values.get ⟨0, by decide⟩

/-! ### Lemmas about index minimum and maximum -/

theorem minF_le_left (u v : Ts) : (minF u v).toNat ≤ u.toNat := by
  unfold minF; split <;> omega

theorem minF_le_right (u v : Ts) : (minF u v).toNat ≤ v.toNat := by
  unfold minF; split <;> omega

theorem minF_cases (u v : Ts) : minF u v = u ∨ minF u v = v := by
  unfold minF; split
  · exact Or.inr rfl
  · exact Or.inl rfl

theorem maxF_ge_left (u v : Ts) : u.toNat ≤ (maxF u v).toNat := by
  unfold maxF; split <;> omega

theorem maxF_ge_right (u v : Ts) : v.toNat ≤ (maxF u v).toNat := by
  unfold maxF; split <;> omega

theorem maxF_cases (u v : Ts) : maxF u v = u ∨ maxF u v = v := by
  unfold maxF; split
  · exact Or.inr rfl
  · exact Or.inl rfl

theorem foldl_minF_le (xs : List Ts) : ∀ a : Ts, (xs.foldl minF a).toNat ≤ a.toNat := by
  induction xs with
  | nil => intro a; exact Nat.le_refl _
  | cons y ys ih =>
    intro a
    exact Nat.le_trans (ih (minF a y)) (minF_le_left a y)

theorem foldl_minF_mem (xs : List Ts) : ∀ a : Ts, xs.foldl minF a = a ∨ xs.foldl minF a ∈ xs := by
  induction xs with
  | nil => intro a; exact Or.inl rfl
  | cons y ys ih =>
    intro a
    rcases ih (minF a y) with h | h
    · rcases minF_cases a y with h2 | h2
      · exact Or.inl (by rw [List.foldl_cons, h, h2])
      · exact Or.inr (by rw [List.foldl_cons, h, h2]; exact List.mem_cons_self _ _)
    · exact Or.inr (List.mem_cons_of_mem _ h)

theorem foldl_minF_le_all (xs : List Ts) :
    ∀ a : Ts, ∀ x ∈ xs, (xs.foldl minF a).toNat ≤ x.toNat := by
  induction xs with
  | nil => intro a x hx; cases hx
  | cons y ys ih =>
    intro a x hx
    rcases List.mem_cons.1 hx with rfl | hx
    · exact Nat.le_trans (foldl_minF_le ys (minF a x)) (minF_le_right a x)
    · exact ih (minF a y) x hx

theorem foldl_maxF_ge (xs : List Ts) : ∀ a : Ts, a.toNat ≤ (xs.foldl maxF a).toNat := by
  induction xs with
  | nil => intro a; exact Nat.le_refl _
  | cons y ys ih =>
    intro a
    exact Nat.le_trans (maxF_ge_left a y) (ih (maxF a y))

theorem foldl_maxF_mem (xs : List Ts) : ∀ a : Ts, xs.foldl maxF a = a ∨ xs.foldl maxF a ∈ xs := by
  induction xs with
  | nil => intro a; exact Or.inl rfl
  | cons y ys ih =>
    intro a
    rcases ih (maxF a y) with h | h
    · rcases maxF_cases a y with h2 | h2
      · exact Or.inl (by rw [List.foldl_cons, h, h2])
      · exact Or.inr (by rw [List.foldl_cons, h, h2]; exact List.mem_cons_self _ _)
    · exact Or.inr (List.mem_cons_of_mem _ h)

theorem foldl_maxF_ge_all (xs : List Ts) :
    ∀ a : Ts, ∀ x ∈ xs, x.toNat ≤ (xs.foldl maxF a).toNat := by
  induction xs with
  | nil => intro a x hx; cases hx
  | cons y ys ih =>
    intro a x hx
    rcases List.mem_cons.1 hx with rfl | hx
    · exact Nat.le_trans (maxF_ge_right a x) (foldl_maxF_ge ys (maxF a x))
    · exact ih (maxF a y) x hx

theorem minTs_spec {l : List Ts} {m : Ts} (h : minTs l = some m) :
    m ∈ l ∧ ∀ x ∈ l, m.toNat ≤ x.toNat := by
  cases l with
  | nil => cases h
  | cons x xs =>
    have hm : xs.foldl minF x = m := by
      have := h
      unfold minTs at this
      exact Option.some.inj this
    constructor
    · rcases foldl_minF_mem xs x with h2 | h2
      · rw [← hm, h2]; exact List.mem_cons_self _ _
      · rw [← hm]; exact List.mem_cons_of_mem _ h2
    · intro z hz
      rcases List.mem_cons.1 hz with rfl | hz
      · rw [← hm]; exact foldl_minF_le xs z
      · rw [← hm]; exact foldl_minF_le_all xs x z hz

theorem maxTs_spec {l : List Ts} {m : Ts} (h : maxTs l = some m) :
    m ∈ l ∧ ∀ x ∈ l, x.toNat ≤ m.toNat := by
  cases l with
  | nil => cases h
  | cons x xs =>
    have hm : xs.foldl maxF x = m := by
      have := h
      unfold maxTs at this
      exact Option.some.inj this
    constructor
    · rcases foldl_maxF_mem xs x with h2 | h2
      · rw [← hm, h2]; exact List.mem_cons_self _ _
      · rw [← hm]; exact List.mem_cons_of_mem _ h2
    · intro z hz
      rcases List.mem_cons.1 hz with rfl | hz
      · rw [← hm]; exact foldl_maxF_ge xs z
      · rw [← hm]; exact foldl_maxF_ge_all xs x z hz

theorem minTs_of_ne_nil {l : List Ts} (h : l ≠ []) : ∃ m, minTs l = some m := by
  cases l with
  | nil => exact absurd rfl h
  | cons x xs => exact ⟨xs.foldl minF x, rfl⟩

theorem maxTs_of_ne_nil {l : List Ts} (h : l ≠ []) : ∃ m, maxTs l = some m := by
  cases l with
  | nil => exact absurd rfl h
  | cons x xs => exact ⟨xs.foldl maxF x, rfl⟩

/-! ### Lemmas about the python-dict model -/

section DictLemmas

variable {α β : Type} [DecidableEq α]

theorem dictGet_map_update_ne (m : List (α × β)) (k : α) (v : β) (k' : α) (hne : k' ≠ k) :
    dictGet (m.map (fun p => if p.1 = k then (k, v) else p)) k' = dictGet m k' := by
  induction m with
  | nil => rfl
  | cons p ps ih =>
    unfold dictGet at *
    by_cases hp : p.1 = k
    · rw [List.map_cons, if_pos hp, List.find?_cons, List.find?_cons]
      have h1 : (decide ((k, v).1 = k')) = false := by
        simp only [decide_eq_false_iff_not]
        exact fun hh => hne hh.symm
      have h2 : (decide (p.1 = k')) = false := by
        simp only [decide_eq_false_iff_not]
        rw [hp]
        exact fun hh => hne hh.symm
      rw [h1, h2]
      exact ih
    · rw [List.map_cons, if_neg hp, List.find?_cons, List.find?_cons]
      cases hd : decide (p.1 = k')
      · exact ih
      · rfl

theorem dictGet_map_update_eq (m : List (α × β)) (k : α) (v : β)
    (hmem : m.any (fun p => decide (p.1 = k)) = true) :
    dictGet (m.map (fun p => if p.1 = k then (k, v) else p)) k = some v := by
  induction m with
  | nil => cases hmem
  | cons p ps ih =>
    by_cases hp : p.1 = k
    · unfold dictGet
      rw [List.map_cons, if_pos hp, List.find?_cons]
      have h1 : (decide ((k, v).1 = k)) = true := by simp
      rw [h1]
      rfl
    · unfold dictGet
      rw [List.map_cons, if_neg hp, List.find?_cons]
      have h2 : (decide (p.1 = k)) = false := by simpa using hp
      rw [h2]
      have hmem2 : ps.any (fun p => decide (p.1 = k)) = true := by
        rcases List.any_eq_true.1 hmem with ⟨q, hq, hqk⟩
        rcases List.mem_cons.1 hq with rfl | hq
        · exact absurd (of_decide_eq_true hqk) hp
        · exact List.any_eq_true.2 ⟨q, hq, hqk⟩
      exact ih hmem2

theorem dictGet_dictInsert (m : List (α × β)) (k : α) (v : β) (k' : α) :
    dictGet (dictInsert m k v) k' = if k' = k then some v else dictGet m k' := by
  unfold dictInsert
  by_cases hk : k' = k
  · subst hk
    rw [if_pos rfl]
    cases hmem : m.any (fun p => decide (p.1 = k'))
    · rw [if_neg Bool.false_ne_true]
      unfold dictGet
      rw [List.find?_append]
      have hnone : m.find? (fun p => decide (p.1 = k')) = none := by
        rw [List.find?_eq_none]
        intro p hp hpk
        have : m.any (fun p => decide (p.1 = k')) = true := List.any_eq_true.2 ⟨p, hp, hpk⟩
        rw [hmem] at this
        cases this
      rw [hnone]
      simp
    · rw [if_pos rfl]
      exact dictGet_map_update_eq m k' v hmem
  · rw [if_neg hk]
    cases hmem : m.any (fun p => decide (p.1 = k))
    · rw [if_neg Bool.false_ne_true]
      unfold dictGet
      rw [List.find?_append]
      have hone : List.find? (fun p => decide (p.1 = k')) [(k, v)] = none := by
        rw [List.find?_eq_none]
        intro p hp hpk
        rcases List.mem_singleton.1 hp with rfl
        exact hk (of_decide_eq_true hpk).symm
      rw [hone]
      simp
    · rw [if_pos rfl]
      exact dictGet_map_update_ne m k v k' hk

theorem dictGet_foldl (ps : List (α × β)) :
    ∀ (init : List (α × β)) (k : α),
      dictGet (ps.foldl (fun m p => dictInsert m p.1 p.2) init) k =
        (lookupLast ps k).or (dictGet init k) := by
  induction ps with
  | nil => intro init k; simp [lookupLast]
  | cons q qs ih =>
    intro init k
    rw [List.foldl_cons]
    rw [ih (dictInsert init q.1 q.2) k]
    have hlast : lookupLast (q :: qs) k =
        (lookupLast qs k).or (if q.1 = k then some q.2 else none) := by
      unfold lookupLast
      rw [List.reverse_cons, List.find?_append]
      cases hfq : List.find? (fun p => decide (p.1 = k)) qs.reverse
      · simp only [Option.none_or, Option.map_none]
        cases hq : decide (q.1 = k)
        · rw [List.find?_cons, hq]
          simp [of_decide_eq_false hq]
        · rw [List.find?_cons, hq]
          simp [of_decide_eq_true hq]
      · simp
    rw [hlast, dictGet_dictInsert]
    cases hfq : lookupLast qs k
    · simp only [Option.none_or]
      by_cases hqk : q.1 = k
      · rw [if_pos hqk, if_pos hqk.symm]
        simp
      · rw [if_neg hqk, if_neg (fun hh => hqk hh.symm)]
        simp
    · simp

theorem dictGet_dictOfPairs (ps : List (α × β)) (k : α) :
    dictGet (dictOfPairs ps) k = lookupLast ps k := by
  unfold dictOfPairs
  rw [dictGet_foldl]
  simp [dictGet]

end DictLemmas


theorem selCol_eq_some {t : Table} {zone c : String} (h : selCol t zone = some c) :
    c ∈ t.header ∧ normalizeKey c = normalizeKey zone := by
  unfold selCol colMapOf at h
  rw [dictGet_dictOfPairs] at h
  unfold lookupLast at h
  cases hf : List.find? (fun p => decide (p.1 = normalizeKey zone))
      ((t.header.map (fun c => (normalizeKey c, c))).reverse) with
  | none => rw [hf] at h; cases h
  | some q =>
    rw [hf] at h
    have hq2 : q.2 = c := Option.some.inj h
    have hqmem : q ∈ (t.header.map (fun c => (normalizeKey c, c))).reverse :=
      List.mem_of_find?_eq_some hf
    rw [List.mem_reverse, List.mem_map] at hqmem
    obtain ⟨x, hx, hxq⟩ := hqmem
    have hq1 : q.1 = normalizeKey zone := by simpa using List.find?_some hf
    constructor
    · rw [← hq2, ← hxq]; exact hx
    · rw [← hq2, ← hxq]
      rw [← hxq] at hq1
      simpa using hq1

theorem selCol_exists_of_mem {t : Table} {zone c : String} (hc : c ∈ t.header)
    (hk : normalizeKey c = normalizeKey zone) : ∃ d, selCol t zone = some d := by
  unfold selCol colMapOf
  rw [dictGet_dictOfPairs]
  unfold lookupLast
  have hs : (List.find? (fun p => decide (p.1 = normalizeKey zone))
      ((t.header.map (fun c => (normalizeKey c, c))).reverse)).isSome := by
    rw [List.find?_isSome]
    refine ⟨(normalizeKey c, c), ?_, by simpa using hk⟩
    rw [List.mem_reverse, List.mem_map]
    exact ⟨c, hc, rfl⟩
  obtain ⟨q, hq⟩ := Option.isSome_iff_exists.1 hs
  exact ⟨q.2, by rw [hq]; rfl⟩

theorem selCol_none {t : Table} {zone : String}
    (h : ∀ c ∈ t.header, normalizeKey c ≠ normalizeKey zone) : selCol t zone = none := by
  unfold selCol colMapOf
  rw [dictGet_dictOfPairs]
  unfold lookupLast
  have hn : List.find? (fun p => decide (p.1 = normalizeKey zone))
      ((t.header.map (fun c => (normalizeKey c, c))).reverse) = none := by
    rw [List.find?_eq_none]
    intro p hp hpk
    rw [List.mem_reverse, List.mem_map] at hp
    obtain ⟨x, hx, hxp⟩ := hp
    refine h x hx ?_
    rw [← hxp] at hpk
    simpa using of_decide_eq_true hpk
  rw [hn]
  rfl

theorem loadDemand_ok {t : Table} {s? e? : Option Ts} {rule : Rule} {zone : String}
    {κ : ℚ} {f : DemandFrame} (h : loadDemand t s? e? rule zone κ = .ok f) :
    ∃ c s e, selCol t zone = some c ∧ resolveStart t s? = some s ∧
      resolveEnd t e? = some e ∧ Ts.ltb e s = false ∧
      (t.rows.map (fun r => (r.1, cellAt (selIdx t c) r))).filter
        (fun r => inWindow s e r.1) ≠ [] ∧
      f = ⟨c, (resampleSum rule ((t.rows.map (fun r => (r.1, cellAt (selIdx t c) r))).filter
        (fun r => inWindow s e r.1))).map (fun p => (p.1, p.2 * κ))⟩ := by
  unfold loadDemand at h
  split at h
  · cases h
  · split at h
    · cases h
    · rename_i c hc
      split at h
      · rename_i s e hs he
        split at h
        · cases h
        · split at h
          · cases h
          · rename_i hlt hne
            refine ⟨c, s, e, hc, hs, he, ?_, hne, ?_⟩
            · exact Bool.of_not_eq_true hlt
            · exact (Except.ok.inj h).symm
      · cases h

theorem resampleSum_mem {rule : Rule} {sliced : List (Ts × Option ℚ)} {L : Ts} {v : ℚ}
    (h : (L, v) ∈ resampleSum rule sliced) :
    (∃ a b, minTs (sliced.map (fun r => r.1)) = some a ∧
      maxTs (sliced.map (fun r => r.1)) = some b ∧ L ∈ rule.labels a b) ∧
    v = ((sliced.filter (fun r => decide (rule.label r.1 = L))).filterMap
      (fun r => r.2)).sum := by
  unfold resampleSum at h
  split at h
  · rename_i a b ha hb
    rw [List.mem_map] at h
    obtain ⟨L0, hL0, heq⟩ := h
    have h1 : L0 = L := congrArg Prod.fst heq
    have h2 : v = ((sliced.filter (fun r => decide (rule.label r.1 = L0))).filterMap
        (fun r => r.2)).sum := (congrArg Prod.snd heq).symm
    subst h1
    exact ⟨⟨a, b, ha, hb, hL0⟩, h2⟩
  · cases h

theorem resampleMean_mem {rule : Rule} {n : Nat} {sliced : List (Ts × List (Option ℚ))}
    {L : Ts} {vs : List (Option ℚ)} (h : (L, vs) ∈ resampleMean rule n sliced) :
    (∃ a b, minTs (sliced.map (fun r => r.1)) = some a ∧
      maxTs (sliced.map (fun r => r.1)) = some b ∧ L ∈ rule.labels a b) ∧
    vs = (List.range n).map (fun j =>
      meanOpt ((sliced.filter (fun r => decide (rule.label r.1 = L))).filterMap
        (fun r => r.2.getD j none))) := by
  unfold resampleMean at h
  split at h
  · rename_i a b ha hb
    rw [List.mem_map] at h
    obtain ⟨L0, hL0, heq⟩ := h
    have h1 : L0 = L := congrArg Prod.fst heq
    have h2 := (congrArg Prod.snd heq).symm
    subst h1
    exact ⟨⟨a, b, ha, hb, hL0⟩, h2⟩
  · cases h

theorem loadPrices_ok {t : Table} {s? e? : Option Ts} {rule : Rule} {f : PriceFrame}
    (h : loadPrices t s? e? rule = .ok f) :
    ∃ s e, resolveStart t s? = some s ∧ resolveEnd t e? = some e ∧ Ts.ltb e s = false ∧
      (t.rows.map (fun r => (r.1, r.2.map Cell.toNum))).filter
        (fun r => inWindow s e r.1) ≠ [] ∧
      f = ⟨t.header.map normalizePriceCol,
        resampleMean rule (t.header.map normalizePriceCol).length
          ((t.rows.map (fun r => (r.1, r.2.map Cell.toNum))).filter
            (fun r => inWindow s e r.1))⟩ := by
  unfold loadPrices at h
  split at h
  · cases h
  · split at h
    · split at h
      · rename_i s e hs he
        split at h
        · cases h
        · split at h
          · cases h
          · rename_i hlt hne
            refine ⟨s, e, hs, he, Bool.of_not_eq_true hlt, hne, (Except.ok.inj h).symm⟩
      · cases h
    · cases h

theorem loadDemand_success {t : Table} {rule : Rule} {zone : String} {κ : ℚ} {c : String}
    (hh : t.header ≠ []) (hr : t.rows ≠ []) (hsel : selCol t zone = some c) :
    loadDemand t none none rule zone κ =
      .ok ⟨c, (resampleSum rule (t.rows.map (fun r => (r.1, cellAt (selIdx t c) r)))).map
        (fun p => (p.1, p.2 * κ))⟩ := by
  obtain ⟨s, hs⟩ := minTs_of_ne_nil (l := t.rows.map (fun r => r.1))
    (by simpa using hr)
  obtain ⟨e, he⟩ := maxTs_of_ne_nil (l := t.rows.map (fun r => r.1))
    (by simpa using hr)
  have hsmem := minTs_spec hs
  have hemem := maxTs_spec he
  have hse : s.toNat ≤ e.toNat := hsmem.2 e hemem.1
  have hall : ∀ r ∈ t.rows.map (fun r => (r.1, cellAt (selIdx t c) r)),
      inWindow s e r.1 = true := by
    intro r hrm
    rw [List.mem_map] at hrm
    obtain ⟨r0, hr0, rfl⟩ := hrm
    have h1 : s.toNat ≤ r0.1.toNat := hsmem.2 r0.1 (List.mem_map_of_mem (fun r => r.1) hr0)
    have h2 : r0.1.toNat ≤ e.toNat := hemem.2 r0.1 (List.mem_map_of_mem (fun r => r.1) hr0)
    unfold inWindow Ts.leb
    simp [h1, h2]
  have hfilter : (t.rows.map (fun r => (r.1, cellAt (selIdx t c) r))).filter
      (fun r => inWindow s e r.1) = t.rows.map (fun r => (r.1, cellAt (selIdx t c) r)) :=
    List.filter_eq_self.2 hall
  have hrs : resolveStart t none = some s := hs
  have hre : resolveEnd t none = some e := he
  have hlt : Ts.ltb e s = false := by unfold Ts.ltb; simp; omega
  have hne : t.rows.map (fun r => (r.1, cellAt (selIdx t c) r)) ≠ [] := by simpa using hr
  have hlen : ¬ t.header.length < 1 := by simp [Nat.lt_one_iff, List.length_eq_zero, hh]
  simp [loadDemand, hsel, hrs, hre, hlt, hfilter, hne, hlen]

theorem loadPrices_success {t : Table} {rule : Rule}
    (hh : t.header ≠ []) (hr : t.rows ≠ [])
    (hc : "coal" ∈ t.header.map normalizePriceCol)
    (hg : "gas" ∈ t.header.map normalizePriceCol)
    (ho : "oil" ∈ t.header.map normalizePriceCol) :
    loadPrices t none none rule =
      .ok ⟨t.header.map normalizePriceCol,
        resampleMean rule (t.header.map normalizePriceCol).length
          (t.rows.map (fun r => (r.1, r.2.map Cell.toNum)))⟩ := by
  obtain ⟨s, hs⟩ := minTs_of_ne_nil (l := t.rows.map (fun r => r.1))
    (by simpa using hr)
  obtain ⟨e, he⟩ := maxTs_of_ne_nil (l := t.rows.map (fun r => r.1))
    (by simpa using hr)
  have hsmem := minTs_spec hs
  have hemem := maxTs_spec he
  have hse : s.toNat ≤ e.toNat := hsmem.2 e hemem.1
  have hall : ∀ r ∈ t.rows.map (fun r => (r.1, r.2.map Cell.toNum)),
      inWindow s e r.1 = true := by
    intro r hrm
    rw [List.mem_map] at hrm
    obtain ⟨r0, hr0, rfl⟩ := hrm
    have h1 : s.toNat ≤ r0.1.toNat := hsmem.2 r0.1 (List.mem_map_of_mem (fun r => r.1) hr0)
    have h2 : r0.1.toNat ≤ e.toNat := hemem.2 r0.1 (List.mem_map_of_mem (fun r => r.1) hr0)
    unfold inWindow Ts.leb
    simp [h1, h2]
  have hfilter : (t.rows.map (fun r => (r.1, r.2.map Cell.toNum))).filter
      (fun r => inWindow s e r.1) = t.rows.map (fun r => (r.1, r.2.map Cell.toNum)) :=
    List.filter_eq_self.2 hall
  have hmiss : requiredPriceCols.filter
      (fun r => ! (t.header.map normalizePriceCol).contains r) = [] := by
    rw [List.filter_eq_nil_iff]
    intro a ha
    unfold requiredPriceCols at ha
    simp only [List.mem_cons, List.mem_singleton] at ha
    rcases ha with rfl | rfl | rfl | h
    · simp [hc]
    · simp [hg]
    · simp [ho]
    · cases h
  have hrs : resolveStart t none = some s := hs
  have hre : resolveEnd t none = some e := he
  have hlt : Ts.ltb e s = false := by unfold Ts.ltb; simp; omega
  have hne : t.rows.map (fun r => (r.1, r.2.map Cell.toNum)) ≠ [] := by simpa using hr
  have hlen : ¬ t.header.length < 1 := by simp [Nat.lt_one_iff, List.length_eq_zero, hh]
  simp [loadPrices, hmiss, hrs, hre, hlt, hfilter, hne, hlen]
  intro x hx
  simp only [requiredPriceCols, List.mem_cons, List.mem_singleton] at hx
  rcases hx with rfl | rfl | rfl | hx
  · exact List.mem_map.1 hc
  · exact List.mem_map.1 hg
  · exact List.mem_map.1 ho
  · cases hx

/-! ### Calendar lemmas -/

theorem daysInMonth_pos (y m : Nat) : 1 ≤ daysInMonth y m := by
  unfold daysInMonth
  split
  · split <;> omega
  · split <;> omega

theorem daysInMonth_le (y m : Nat) : daysInMonth y m ≤ 31 := by
  unfold daysInMonth
  split
  · split <;> omega
  · split <;> omega

theorem monthIdx_monthEndOf (i : Nat) : monthIdx (monthEndOf i) = i := by
  unfold monthIdx monthEndOf
  simp only []
  omega

theorem mem_labels_ME {a b L : Ts} (h : L ∈ ruleME.labels a b) :
    monthIdx a ≤ monthIdx L ∧ monthIdx L ≤ monthIdx b ∧ L = monthEndOf (monthIdx L) := by
  have h2 : L ∈ (List.range (monthIdx b + 1 - monthIdx a)).map
      (fun k => monthEndOf (monthIdx a + k)) := h
  rw [List.mem_map] at h2
  obtain ⟨k, hk, rfl⟩ := h2
  rw [List.mem_range] at hk
  rw [monthIdx_monthEndOf]
  exact ⟨by omega, by omega, rfl⟩

theorem monthIdx_mono {x y : Ts} (hx : validTs x) (hy : validTs y)
    (h : x.toNat ≤ y.toNat) : monthIdx x ≤ monthIdx y := by
  obtain ⟨hx1, hx2, hx3, hx4, hx5⟩ := hx
  obtain ⟨hy1, hy2, hy3, hy4, hy5⟩ := hy
  have hxd : x.day ≤ 31 := Nat.le_trans hx4 (daysInMonth_le x.year x.month)
  have hyd : y.day ≤ 31 := Nat.le_trans hy4 (daysInMonth_le y.year y.month)
  unfold Ts.toNat at h
  unfold monthIdx
  omega

theorem monthEndOf_mono {i j : Nat} (h : i ≤ j) :
    (monthEndOf i).toNat ≤ (monthEndOf j).toNat := by
  by_cases hij : i = j
  · subst hij; exact Nat.le_refl _
  · have h1 := daysInMonth_le (i / 12) (i % 12 + 1)
    have h2 := daysInMonth_pos (j / 12) (j % 12 + 1)
    unfold monthEndOf Ts.toNat
    simp only []
    omega

theorem inWindow_iff {s e x : Ts} :
    inWindow s e x = true ↔ (s.toNat ≤ x.toNat ∧ x.toNat ≤ e.toNat) := by
  unfold inWindow Ts.leb
  simp

theorem sliced_ts_spec {γ : Type} {rows : List (Ts × List Cell)} {g : Ts × List Cell → γ}
    {s e x : Ts}
    (hx : x ∈ ((rows.map (fun r => (r.1, g r))).filter
      (fun r => inWindow s e r.1)).map (fun r => r.1)) :
    (∃ r0 ∈ rows, r0.1 = x) ∧ inWindow s e x = true := by
  rw [List.mem_map] at hx
  obtain ⟨p, hp, rfl⟩ := hx
  rw [List.mem_filter] at hp
  obtain ⟨hp1, hp2⟩ := hp
  rw [List.mem_map] at hp1
  obtain ⟨r0, hr0, rfl⟩ := hp1
  exact ⟨⟨r0, hr0, rfl⟩, hp2⟩

/-! ### Bucket-value helpers -/

theorem demand_bucket_value {t : Table} {s? e? : Option Ts} {rule : Rule} {zone : String}
    {κ : ℚ} {f : DemandFrame} (h : loadDemand t s? e? rule zone κ = .ok f)
    {c : String} {s e : Ts} (hc : selCol t zone = some c)
    (hs : resolveStart t s? = some s) (he : resolveEnd t e? = some e)
    {L : Ts} {v : ℚ} (hm : (L, v) ∈ f.values) :
    v = ((t.rows.filter (fun r => inWindow s e r.1 && decide (rule.label r.1 = L))).filterMap
      (fun r => cellAt (selIdx t c) r)).sum * κ := by
  obtain ⟨c2, s2, e2, hc2, hs2, he2, hlt, hne, hf⟩ := loadDemand_ok h
  rw [hc] at hc2
  rw [hs] at hs2
  rw [he] at he2
  obtain rfl : c = c2 := Option.some.inj hc2
  obtain rfl : s = s2 := Option.some.inj hs2
  obtain rfl : e = e2 := Option.some.inj he2
  subst hf
  simp only [List.mem_map] at hm
  obtain ⟨p, hp, hpe⟩ := hm
  have hL : p.1 = L := congrArg Prod.fst hpe
  have hv : v = p.2 * κ := (congrArg Prod.snd hpe).symm
  subst hL
  have hps := resampleSum_mem (by
    have : (p.1, p.2) = p := rfl
    rw [this]
    exact hp)
  rw [hv, hps.2]
  have hcomm : ((t.rows.map (fun r => (r.1, cellAt (selIdx t c) r))).filter
        (fun r => inWindow s e r.1)).filter (fun r => decide (rule.label r.1 = p.1)) =
      (t.rows.map (fun r => (r.1, cellAt (selIdx t c) r))).filter
        (fun r => inWindow s e r.1 && decide (rule.label r.1 = p.1)) := by
    rw [List.filter_filter]
    exact List.filter_congr (fun a _ => Bool.and_comm _ _)
  rw [hcomm]
  rw [show (t.rows.map (fun r => (r.1, cellAt (selIdx t c) r))).filter
        (fun r => inWindow s e r.1 && decide (rule.label r.1 = p.1)) =
      (t.rows.filter (fun r => inWindow s e r.1 && decide (rule.label r.1 = p.1))).map
        (fun r => (r.1, cellAt (selIdx t c) r)) from List.filter_map _ _]
  rw [List.filterMap_map]
  rfl

theorem prices_bucket_value {t : Table} {s? e? : Option Ts} {rule : Rule} {f : PriceFrame}
    (h : loadPrices t s? e? rule = .ok f)
    {s e : Ts} (hs : resolveStart t s? = some s) (he : resolveEnd t e? = some e)
    {L : Ts} {vs : List (Option ℚ)} (hm : (L, vs) ∈ f.values) :
    (∃ a b, ((∃ r0 ∈ t.rows, r0.1 = a) ∧ inWindow s e a = true) ∧
      ((∃ r0 ∈ t.rows, r0.1 = b) ∧ inWindow s e b = true) ∧ L ∈ rule.labels a b) ∧
    ∀ j, j < t.header.length → vs.getD j none =
      meanOpt ((t.rows.filter (fun r => inWindow s e r.1 && decide (rule.label r.1 = L))).filterMap
        (fun r => (r.2.map Cell.toNum).getD j none)) := by
  obtain ⟨s2, e2, hs2, he2, hlt, hne, hf⟩ := loadPrices_ok h
  rw [hs] at hs2
  rw [he] at he2
  obtain rfl : s = s2 := Option.some.inj hs2
  obtain rfl : e = e2 := Option.some.inj he2
  subst hf
  have hps := resampleMean_mem hm
  obtain ⟨⟨a, b, ha, hb, hL⟩, hvs⟩ := hps
  constructor
  · refine ⟨a, b, ?_, ?_, hL⟩
    · exact sliced_ts_spec ((minTs_spec ha).1)
    · exact sliced_ts_spec ((maxTs_spec hb).1)
  · intro j hj
    have hjn : j < (t.header.map normalizePriceCol).length := by
      rw [List.length_map]; exact hj
    rw [hvs]
    rw [List.getD_eq_getElem?_getD, List.getElem?_map, List.getElem?_range hjn]
    simp only [Option.map_some', Option.getD_some]
    have hcomm : ((t.rows.map (fun r => (r.1, r.2.map Cell.toNum))).filter
          (fun r => inWindow s e r.1)).filter (fun r => decide (rule.label r.1 = L)) =
        (t.rows.map (fun r => (r.1, r.2.map Cell.toNum))).filter
          (fun r => inWindow s e r.1 && decide (rule.label r.1 = L)) := by
      rw [List.filter_filter]
      exact List.filter_congr (fun x _ => Bool.and_comm _ _)
    rw [hcomm]
    rw [show (t.rows.map (fun r => (r.1, r.2.map Cell.toNum))).filter
          (fun r => inWindow s e r.1 && decide (rule.label r.1 = L)) =
        (t.rows.filter (fun r => inWindow s e r.1 && decide (rule.label r.1 = L))).map
          (fun r => (r.1, r.2.map Cell.toNum)) from List.filter_map _ _]
    rw [List.filterMap_map]
    rfl

/-! ### Characterization of the explicit-end extension -/

theorem endBound_non_last (y m d : Nat) (hd : d < daysInMonth y m) :
    endBound ⟨y, m, d, 0⟩ = ⟨y, m, daysInMonth y m, 23⟩ := by
  unfold endBound monthEnd1
  split
  · rename_i hc
    have hc2 : d = daysInMonth y m := hc
    omega
  · simp [Ts.addHours, Ts.addDays]

theorem endBound_last (y m : Nat) (hm : m < 12) :
    endBound ⟨y, m, daysInMonth y m, 0⟩ = ⟨y, m + 1, daysInMonth y (m + 1), 23⟩ := by
  unfold endBound monthEnd1
  split
  · split
    · rename_i hc
      have hc2 : m = 12 := hc
      omega
    · simp [Ts.addHours, Ts.addDays]
  · rename_i hc
    exact absurd rfl hc

theorem endBound_december (y : Nat) :
    endBound ⟨y, 12, 31, 0⟩ = ⟨y + 1, 1, 31, 23⟩ := by
  have h31 : daysInMonth y 12 = 31 := by unfold daysInMonth; norm_num
  unfold endBound monthEnd1
  split
  · split
    · simp [Ts.addHours, Ts.addDays]
    · rename_i hc
      exact absurd rfl hc
  · rename_i hc
    have hc2 : ¬ (31 = daysInMonth y 12) := hc
    omega

/-! ### Claim C1 -/

/-- C1 counterexample: with end 2024-01-31 (the last day of its month) the
effective upper bound is 2024-02-29T23:00, the 2024-02-10 row lies inside the
window, and the returned frame carries a February bucket, so the window is not
capped at 2024-01-31T23:00 and rows of a later month are included. -/
theorem C1_counterexample :
    resolveEnd tableC1 (some ⟨2024, 1, 31, 0⟩) = some ⟨2024, 2, 29, 23⟩ ∧
    inWindow ⟨2024, 1, 31, 23⟩ ⟨2024, 2, 29, 23⟩ ⟨2024, 2, 10, 0⟩ = true ∧
    loadDemand tableC1 none (some ⟨2024, 1, 31, 0⟩) ruleME "DK_2" (1 / 2) = .ok frameC1 ∧
    frameC1.values.map (fun p => p.1) = [⟨2024, 1, 31, 0⟩, ⟨2024, 2, 29, 0⟩] :=
  ⟨by decide, by decide, rfl, by decide⟩

/-- C1 amended: with an explicit end, both loaders bound the window by
`endBound`; that bound equals the end of the calendar month containing the
end plus 23 hours only when the end is not the last day of its month, and
when the end is the last day of a month the bound is the end of the NEXT
month plus 23 hours, so end 2024-01-31 resolves to 2024-02-29T23:00. -/
theorem C1_theorem :
    (∀ (t : Table) (e : Ts), resolveEnd t (some e) = some (endBound e)) ∧
    (∀ y m d : Nat, d < daysInMonth y m →
      endBound ⟨y, m, d, 0⟩ = ⟨y, m, daysInMonth y m, 23⟩) ∧
    (∀ y m : Nat, m < 12 →
      endBound ⟨y, m, daysInMonth y m, 0⟩ = ⟨y, m + 1, daysInMonth y (m + 1), 23⟩) ∧
    endBound ⟨2024, 1, 31, 0⟩ = ⟨2024, 2, 29, 23⟩ :=
  ⟨fun _ _ => rfl, endBound_non_last, endBound_last, by decide⟩

/-- C1 witness: the amended characterization evaluated at a mid-month end and
at a month-end end. -/
theorem C1_witness :
    endBound ⟨2024, 1, 15, 0⟩ = ⟨2024, 1, 31, 23⟩ ∧
    endBound ⟨2023, 11, 30, 0⟩ = ⟨2023, 12, 31, 23⟩ :=
  ⟨C1_theorem.2.1 2024 1 15 (by decide), C1_theorem.2.2.1 2023 11 (by decide)⟩

/-! ### Claim C2 -/

/-- C2: every bucket value returned by `load_demand` is the supply factor
times the sum of the coerced zone-column values of the window rows falling in
that bucket, missing values excluded from the sum. -/
theorem C2_theorem : ∀ (t : Table) (s? e? : Option Ts) (rule : Rule) (zone : String)
    (κ : ℚ) (f : DemandFrame),
    loadDemand t s? e? rule zone κ = .ok f →
    ∀ c s e, selCol t zone = some c → resolveStart t s? = some s →
      resolveEnd t e? = some e →
    ∀ L v, (L, v) ∈ f.values →
    v = κ * ((t.rows.filter (fun r => inWindow s e r.1 && decide (rule.label r.1 = L))).filterMap
      (fun r => cellAt (selIdx t c) r)).sum := by
  intro t s? e? rule zone κ f h c s e hc hs he L v hm
  rw [demand_bucket_value h hc hs he hm]
  exact mul_comm _ _

/-- C2 witness: the bucket-sum identity evaluated on `tableC2` at its first
bucket. -/
theorem C2_witness :
    pairC2.2 = (1 / 2) * ((tableC2.rows.filter (fun r =>
      inWindow ⟨2024, 1, 10, 0⟩ ⟨2024, 2, 5, 0⟩ r.1 &&
        decide (ruleME.label r.1 = pairC2.1))).filterMap
      (fun r => cellAt (selIdx tableC2 "DK_2") r)).sum :=
  C2_theorem tableC2 none none ruleME "DK_2" (1 / 2) frameC2 rfl "DK_2" ⟨2024, 1, 10, 0⟩
    ⟨2024, 2, 5, 0⟩ (by decide) (by decide) (by decide) pairC2.1 pairC2.2
    (List.get_mem frameC2.values 0 (by decide))

/-! ### Claim C3 -/

/-- C3 counterexample: on a price file with a single 2024-03-10 row and no
explicit bounds, the resolved window is [2024-03-10, 2024-03-10] but the one
returned bucket is labeled 2024-03-31, which is not within the resolved
interval. -/
theorem C3_counterexample :
    loadPrices tableC3 none none ruleME = .ok frameC3 ∧
    resolveStart tableC3 none = some ⟨2024, 3, 10, 0⟩ ∧
    resolveEnd tableC3 none = some ⟨2024, 3, 10, 0⟩ ∧
    frameC3.values.map (fun p => p.1) = [⟨2024, 3, 31, 0⟩] ∧
    Ts.leb ⟨2024, 3, 31, 0⟩ ⟨2024, 3, 10, 0⟩ = false :=
  ⟨rfl, by decide, by decide, by decide, by decide⟩

/-- C3 amended: under the default month-end rule every returned bucket label
is a month end lying between the month end of the month of the resolved start
and the month end of the month of the resolved end, and each bucket value of
each column is the mean of the non-missing coerced values of the window rows
in that bucket, `none` when no value contributes. -/
theorem C3_theorem : ∀ (t : Table) (s? e? : Option Ts) (f : PriceFrame),
    loadPrices t s? e? ruleME = .ok f →
    (∀ r ∈ t.rows, validTs r.1) →
    ∀ s e, resolveStart t s? = some s → resolveEnd t e? = some e →
      validTs s → validTs e →
    ∀ L vs, (L, vs) ∈ f.values →
      ((monthEndOf (monthIdx s)).toNat ≤ L.toNat ∧
        L.toNat ≤ (monthEndOf (monthIdx e)).toNat ∧
        L = monthEndOf (monthIdx L)) ∧
      (∀ j, j < t.header.length → vs.getD j none =
        meanOpt ((t.rows.filter (fun r => inWindow s e r.1 &&
          decide (ruleME.label r.1 = L))).filterMap
          (fun r => (r.2.map Cell.toNum).getD j none))) := by
  intro t s? e? f h hval s e hs he hvs hve L vs hm
  obtain ⟨⟨a, b, ⟨⟨ra, hra, hrae⟩, hwa⟩, ⟨⟨rb, hrb, hrbe⟩, hwb⟩, hL⟩, hmean⟩ :=
    prices_bucket_value h hs he hm
  refine ⟨?_, hmean⟩
  have hva : validTs a := hrae ▸ hval ra hra
  have hvb : validTs b := hrbe ▸ hval rb hrb
  obtain ⟨hw1, hw2⟩ := inWindow_iff.1 hwa
  obtain ⟨hw3, hw4⟩ := inWindow_iff.1 hwb
  obtain ⟨hma, hmb, hLe⟩ := mem_labels_ME hL
  have h1 : monthIdx s ≤ monthIdx a := monthIdx_mono hvs hva hw1
  have h2 : monthIdx b ≤ monthIdx e := monthIdx_mono hvb hve hw4
  refine ⟨?_, ?_, hLe⟩
  · have hmon := monthEndOf_mono (Nat.le_trans h1 hma)
    rw [← hLe] at hmon
    exact hmon
  · have hmon := monthEndOf_mono (Nat.le_trans hmb h2)
    rw [← hLe] at hmon
    exact hmon

/-- C3 witness: the amended bucket-interval and mean identities evaluated on
`tableC3` at its single bucket and first column. -/
theorem C3_witness :
    ((monthEndOf (monthIdx (⟨2024, 3, 10, 0⟩ : Ts))).toNat ≤ pairC3.1.toNat ∧
      pairC3.1.toNat ≤ (monthEndOf (monthIdx (⟨2024, 3, 10, 0⟩ : Ts))).toNat ∧
      pairC3.1 = monthEndOf (monthIdx pairC3.1)) ∧
    pairC3.2.getD 0 none =
      meanOpt ((tableC3.rows.filter (fun r => inWindow ⟨2024, 3, 10, 0⟩ ⟨2024, 3, 10, 0⟩ r.1 &&
        decide (ruleME.label r.1 = pairC3.1))).filterMap
        (fun r => (r.2.map Cell.toNum).getD 0 none)) := by
  have h := C3_theorem tableC3 none none frameC3 rfl (by decide) ⟨2024, 3, 10, 0⟩
    ⟨2024, 3, 10, 0⟩ (by decide) (by decide) (by decide) (by decide) pairC3.1 pairC3.2
    (List.get_mem frameC3.values 0 (by decide))
  exact ⟨h.1, h.2 0 (by decide)⟩

/-! ### Claim C4 -/

/-- C4: on a nonempty demand file, a zone that matches some column after
trimming and lower-casing makes `load_demand` succeed and return that column
under its original name; a zone that matches no column fails with a format
error whose hint lists at most 20 column names. -/
theorem C4_theorem : ∀ (t : Table) (rule : Rule) (zone : String) (κ : ℚ),
    t.header ≠ [] → t.rows ≠ [] →
    ((∃ c ∈ t.header, normalizeKey c = normalizeKey zone) →
      ∃ c f, selCol t zone = some c ∧ c ∈ t.header ∧
        normalizeKey c = normalizeKey zone ∧
        loadDemand t none none rule zone κ = .ok f ∧ f.colName = c) ∧
    ((∀ c ∈ t.header, normalizeKey c ≠ normalizeKey zone) →
      loadDemand t none none rule zone κ =
        .error (.formatError (availableSample t.header)) ∧
      (t.header.take 20).length ≤ 20) := by
  intro t rule zone κ hh hr
  constructor
  · rintro ⟨c0, hc0, hk0⟩
    obtain ⟨d, hd⟩ := selCol_exists_of_mem hc0 hk0
    obtain ⟨hdm, hdk⟩ := selCol_eq_some hd
    exact ⟨d, _, hd, hdm, hdk, loadDemand_success hh hr hd, rfl⟩
  · intro hno
    have hsel := selCol_none hno
    have hlen : ¬ t.header.length < 1 := by
      simp [Nat.lt_one_iff, List.length_eq_zero, hh]
    constructor
    · unfold loadDemand
      rw [if_neg hlen, hsel]
    · exact List.length_take_le _ _

/-- C4 witness: zone dk_2 against a column named DK_2 with spaces succeeds
with the original column name, and an unmatched zone fails with the
available-column hint. -/
theorem C4_witness :
    loadDemand tableC4 none none ruleME "dk_2" (1 / 2) = .ok frameC4 ∧
    frameC4.colName = " DK_2 " ∧
    loadDemand tableC4b none none ruleME "dk_2" (1 / 2) =
      .error (.formatError (availableSample tableC4b.header)) ∧
    (tableC4b.header.take 20).length ≤ 20 :=
  ⟨rfl, by decide,
    ((C4_theorem tableC4b ruleME "dk_2" (1 / 2) (by decide) (by decide)).2 (by decide)).1,
    ((C4_theorem tableC4b ruleME "dk_2" (1 / 2) (by decide) (by decide)).2 (by decide)).2⟩

/-! ### Claim C5 -/

/-- C5: for every attribute-map loader and table with the required columns,
looking a fuel name up in the returned mapping gives the value of the last
row carrying that fuel name, the two columns being paired row-wise in file
order. -/
theorem C5_theorem : ∀ (t : AttrTable) (d : List (Cell × Cell)),
    (loadStorage t = .ok d → ∀ k, dictGet d k =
      lookupLast ((getColumn t "fuel").zip (getColumn t "capacity")) k) ∧
    (loadPlantCapacity t = .ok d → ∀ k, dictGet d k =
      lookupLast ((getColumn t "fuel").zip (getColumn t "capacity")) k) ∧
    (loadEfficiency t = .ok d → ∀ k, dictGet d k =
      lookupLast ((getColumn t "fuel").zip (getColumn t "efficiency")) k) := by
  intro t d
  refine ⟨?_, ?_, ?_⟩
  · intro h k
    unfold loadStorage at h
    split at h
    · obtain rfl := (Except.ok.inj h).symm
      unfold zipDict
      exact dictGet_dictOfPairs _ _
    · cases h
  · intro h k
    unfold loadPlantCapacity at h
    split at h
    · obtain rfl := (Except.ok.inj h).symm
      unfold zipDict
      exact dictGet_dictOfPairs _ _
    · cases h
  · intro h k
    unfold loadEfficiency at h
    split at h
    · obtain rfl := (Except.ok.inj h).symm
      unfold zipDict
      exact dictGet_dictOfPairs _ _
    · cases h

/-- C5 witness: on rows coal 10, gas 20, coal 15 the storage loader succeeds,
the mapping holds coal 15 and gas 20, and the lookup agrees with the value of
the last matching row. -/
theorem C5_witness :
    loadStorage attrC5 = .ok dictC5 ∧
    dictGet dictC5 (Cell.text "coal") = some (Cell.num 15) ∧
    dictGet dictC5 (Cell.text "gas") = some (Cell.num 20) ∧
    dictGet dictC5 (Cell.text "coal") =
      lookupLast ((getColumn attrC5 "fuel").zip (getColumn attrC5 "capacity"))
        (Cell.text "coal") :=
  ⟨rfl, by decide, by decide, (C5_theorem attrC5 dictC5).1 rfl (Cell.text "coal")⟩

/-! ### Claim C6 -/

/-- C6: when the required columns are present, `load_prices` succeeds and its
output columns are exactly all normalized input columns, extras such as
lignite included; success never depends on cell contents (tables with the
same header and timestamps but any cells also load), and a non-numeric cell
coerces to missing instead of raising. -/
theorem C6_theorem : ∀ (t : Table) (rule : Rule),
    t.header ≠ [] → t.rows ≠ [] →
    "coal" ∈ t.header.map normalizePriceCol →
    "gas" ∈ t.header.map normalizePriceCol →
    "oil" ∈ t.header.map normalizePriceCol →
    (∃ f, loadPrices t none none rule = .ok f ∧
      f.cols = t.header.map normalizePriceCol) ∧
    (∀ rows2 : List (Ts × List Cell),
      rows2.map (fun r => r.1) = t.rows.map (fun r => r.1) →
      ∃ f2, loadPrices ⟨t.header, rows2⟩ none none rule = .ok f2) ∧
    (∀ x : String, Cell.toNum (Cell.text x) = none) := by
  intro t rule hh hr hc hg ho
  refine ⟨⟨_, loadPrices_success hh hr hc hg ho, rfl⟩, ?_, fun _ => rfl⟩
  intro rows2 hmap
  have hr2 : rows2 ≠ [] := by
    intro hnil
    rw [hnil] at hmap
    have h2 := hmap.symm
    simp only [List.map_nil] at h2
    rw [List.map_eq_nil_iff] at h2
    exact hr h2
  exact ⟨_, loadPrices_success (t := ⟨t.header, rows2⟩) hh hr2 hc hg ho⟩

/-- C6 witness: on a table with a Lignite extra column and two non-numeric
cells the loader succeeds and keeps all four normalized columns. -/
theorem C6_witness :
    (∃ f, loadPrices tableC6 none none ruleME = .ok f ∧
      f.cols = tableC6.header.map normalizePriceCol) ∧
    tableC6.header.map normalizePriceCol = ["coal", "gas", "oil", "lignite"] ∧
    Cell.toNum (Cell.text "n/a") = none :=
  ⟨(C6_theorem tableC6 ruleME (by decide) (by decide) (by decide) (by decide)
      (by decide)).1,
    by decide,
    (C6_theorem tableC6 ruleME (by decide) (by decide) (by decide) (by decide)
      (by decide)).2.2 "n/a"⟩

/-! ### Claim C7 -/

/-- C7: a price table whose normalized columns miss one of coal, gas, oil
makes `load_prices` fail with a format error: the missing-column error when a
header exists, the too-few-columns error when there is none. -/
theorem C7_theorem : ∀ (t : Table) (s? e? : Option Ts) (rule : Rule),
    ("coal" ∉ t.header.map normalizePriceCol ∨ "gas" ∉ t.header.map normalizePriceCol ∨
      "oil" ∉ t.header.map normalizePriceCol) →
    (t.header ≠ [] →
      loadPrices t s? e? rule = .error (.formatError (requiredPriceCols.filter
        (fun r => ! (t.header.map normalizePriceCol).contains r)))) ∧
    (t.header = [] →
      loadPrices t s? e? rule = .error (.formatError
        ["CSV must contain a date column plus at least the fuel columns."])) := by
  intro t s? e? rule hmiss
  constructor
  · intro hh
    have hlen : ¬ t.header.length < 1 := by
      simp [Nat.lt_one_iff, List.length_eq_zero, hh]
    have hni : requiredPriceCols.filter
        (fun r => ! (t.header.map normalizePriceCol).contains r) ≠ [] := by
      have hex : ∃ x ∈ requiredPriceCols,
          (! (t.header.map normalizePriceCol).contains x) = true := by
        rcases hmiss with hm | hm | hm
        · exact ⟨"coal", by simp [requiredPriceCols], by simpa using hm⟩
        · exact ⟨"gas", by simp [requiredPriceCols], by simpa using hm⟩
        · exact ⟨"oil", by simp [requiredPriceCols], by simpa using hm⟩
      obtain ⟨x, hx1, hx2⟩ := hex
      exact List.ne_nil_of_mem (List.mem_filter.2 ⟨hx1, hx2⟩)
    unfold loadPrices
    rw [if_neg hlen, if_neg hni]
  · intro hh
    have hlen : t.header.length < 1 := by simp [hh]
    unfold loadPrices
    rw [if_pos hlen]

/-- C7 witness: the no-oil table fails with the missing-column format error,
whose payload is exactly the oil column. -/
theorem C7_witness :
    loadPrices tableC7 none none ruleME = .error (.formatError (requiredPriceCols.filter
      (fun r => ! (tableC7.header.map normalizePriceCol).contains r))) ∧
    requiredPriceCols.filter
      (fun r => ! (tableC7.header.map normalizePriceCol).contains r) = ["oil"] :=
  ⟨(C7_theorem tableC7 none none ruleME (by decide)).1 (by decide), by decide⟩

/-! ### Claim C8 -/

/-- C8: when the resolved start is strictly later than the resolved end, both
loaders fail with the range error. -/
theorem C8_theorem : ∀ (t : Table) (s? e? : Option Ts) (rule : Rule) (zone : String)
    (κ : ℚ) (s e : Ts),
    resolveStart t s? = some s → resolveEnd t e? = some e → Ts.ltb e s = true →
    (t.header ≠ [] →
      "coal" ∈ t.header.map normalizePriceCol →
      "gas" ∈ t.header.map normalizePriceCol →
      "oil" ∈ t.header.map normalizePriceCol →
      loadPrices t s? e? rule = .error .rangeError) ∧
    (∀ c, selCol t zone = some c →
      loadDemand t s? e? rule zone κ = .error .rangeError) := by
  intro t s? e? rule zone κ s e hs he hlt
  constructor
  · intro hh hc hg ho
    have hlen : ¬ t.header.length < 1 := by
      simp [Nat.lt_one_iff, List.length_eq_zero, hh]
    have hmiss : requiredPriceCols.filter
        (fun r => ! (t.header.map normalizePriceCol).contains r) = [] := by
      rw [List.filter_eq_nil_iff]
      intro a ha
      simp only [requiredPriceCols, List.mem_cons, List.mem_singleton] at ha
      rcases ha with rfl | rfl | rfl | ha
      · simp [hc]
      · simp [hg]
      · simp [ho]
      · cases ha
    simp [loadPrices, hlen, hmiss, hs, he, hlt]
    intro x hx
    simp only [requiredPriceCols, List.mem_cons, List.mem_singleton] at hx
    rcases hx with rfl | rfl | rfl | hx
    · exact List.mem_map.1 hc
    · exact List.mem_map.1 hg
    · exact List.mem_map.1 ho
    · cases hx
  · intro c hc
    have hh : t.header ≠ [] := List.ne_nil_of_mem (selCol_eq_some hc).1
    have hlen : ¬ t.header.length < 1 := by
      simp [Nat.lt_one_iff, List.length_eq_zero, hh]
    simp [loadDemand, hlen, hc, hs, he, hlt]

/-- C8 witness: a start in 2025 with an end in January 2024 makes both
loaders fail with the range error. -/
theorem C8_witness :
    loadPrices tableC8 (some ⟨2025, 1, 1, 0⟩) (some ⟨2024, 1, 1, 0⟩) ruleME =
      .error .rangeError ∧
    loadDemand tableC8 (some ⟨2025, 1, 1, 0⟩) (some ⟨2024, 1, 1, 0⟩) ruleME "OIL" (1 / 2) =
      .error .rangeError :=
  ⟨(C8_theorem tableC8 (some ⟨2025, 1, 1, 0⟩) (some ⟨2024, 1, 1, 0⟩) ruleME "OIL" (1 / 2)
      ⟨2025, 1, 1, 0⟩ ⟨2024, 1, 31, 23⟩ (by decide) (by decide) (by decide)).1
      (by decide) (by decide) (by decide) (by decide),
    (C8_theorem tableC8 (some ⟨2025, 1, 1, 0⟩) (some ⟨2024, 1, 1, 0⟩) ruleME "OIL" (1 / 2)
      ⟨2025, 1, 1, 0⟩ ⟨2024, 1, 31, 23⟩ (by decide) (by decide) (by decide)).2
      "oil" (by decide)⟩

/-! ### Claim C9 -/

/-- C9: when the resolved window is well ordered but contains no row of the
file, both loaders fail with the empty-result error instead of returning an
empty frame. -/
theorem C9_theorem : ∀ (t : Table) (s? e? : Option Ts) (rule : Rule) (zone : String)
    (κ : ℚ) (s e : Ts),
    resolveStart t s? = some s → resolveEnd t e? = some e → Ts.ltb e s = false →
    (∀ r ∈ t.rows, inWindow s e r.1 = false) →
    (t.header ≠ [] →
      "coal" ∈ t.header.map normalizePriceCol →
      "gas" ∈ t.header.map normalizePriceCol →
      "oil" ∈ t.header.map normalizePriceCol →
      loadPrices t s? e? rule = .error .emptyResultError) ∧
    (∀ c, selCol t zone = some c →
      loadDemand t s? e? rule zone κ = .error .emptyResultError) := by
  intro t s? e? rule zone κ s e hs he hlt hwin
  constructor
  · intro hh hc hg ho
    have hlen : ¬ t.header.length < 1 := by
      simp [Nat.lt_one_iff, List.length_eq_zero, hh]
    have hmiss : requiredPriceCols.filter
        (fun r => ! (t.header.map normalizePriceCol).contains r) = [] := by
      rw [List.filter_eq_nil_iff]
      intro a ha
      simp only [requiredPriceCols, List.mem_cons, List.mem_singleton] at ha
      rcases ha with rfl | rfl | rfl | ha
      · simp [hc]
      · simp [hg]
      · simp [ho]
      · cases ha
    have hfil : (t.rows.map (fun r => (r.1, r.2.map Cell.toNum))).filter
        (fun r => inWindow s e r.1) = [] := by
      rw [List.filter_eq_nil_iff]
      intro a ha
      rw [List.mem_map] at ha
      obtain ⟨r0, hr0, rfl⟩ := ha
      simp [hwin r0 hr0]
    simp [loadPrices, hlen, hmiss, hs, he, hlt, hfil]
    intro x hx
    simp only [requiredPriceCols, List.mem_cons, List.mem_singleton] at hx
    rcases hx with rfl | rfl | rfl | hx
    · exact List.mem_map.1 hc
    · exact List.mem_map.1 hg
    · exact List.mem_map.1 ho
    · cases hx
  · intro c hc
    have hh : t.header ≠ [] := List.ne_nil_of_mem (selCol_eq_some hc).1
    have hlen : ¬ t.header.length < 1 := by
      simp [Nat.lt_one_iff, List.length_eq_zero, hh]
    have hfil : (t.rows.map (fun r => (r.1, cellAt (selIdx t c) r))).filter
        (fun r => inWindow s e r.1) = [] := by
      rw [List.filter_eq_nil_iff]
      intro a ha
      rw [List.mem_map] at ha
      obtain ⟨r0, hr0, rfl⟩ := ha
      simp [hwin r0 hr0]
    simp [loadDemand, hlen, hc, hs, he, hlt, hfil]

/-- C9 witness: a January-to-February 2024 window on a file whose only row is
in June 2024 makes both loaders fail with the empty-result error. -/
theorem C9_witness :
    loadPrices tableC8 (some ⟨2024, 1, 1, 0⟩) (some ⟨2024, 2, 15, 0⟩) ruleME =
      .error .emptyResultError ∧
    loadDemand tableC8 (some ⟨2024, 1, 1, 0⟩) (some ⟨2024, 2, 15, 0⟩) ruleME "OIL" (1 / 2) =
      .error .emptyResultError :=
  ⟨(C9_theorem tableC8 (some ⟨2024, 1, 1, 0⟩) (some ⟨2024, 2, 15, 0⟩) ruleME "OIL" (1 / 2)
      ⟨2024, 1, 1, 0⟩ ⟨2024, 2, 29, 23⟩ (by decide) (by decide) (by decide) (by decide)).1
      (by decide) (by decide) (by decide) (by decide),
    (C9_theorem tableC8 (some ⟨2024, 1, 1, 0⟩) (some ⟨2024, 2, 15, 0⟩) ruleME "OIL" (1 / 2)
      ⟨2024, 1, 1, 0⟩ ⟨2024, 2, 29, 23⟩ (by decide) (by decide) (by decide) (by decide)).2
      "oil" (by decide)⟩

/-! ### Claim C10 -/

/-- C10: a bucket of `load_demand` whose window rows all have missing zone
values still appears in the result, with value 0 rather than missing. -/
theorem C10_theorem : ∀ (t : Table) (s? e? : Option Ts) (rule : Rule) (zone : String)
    (κ : ℚ) (f : DemandFrame),
    loadDemand t s? e? rule zone κ = .ok f →
    ∀ c s e, selCol t zone = some c → resolveStart t s? = some s →
      resolveEnd t e? = some e →
    ∀ L v, (L, v) ∈ f.values →
    (∀ r ∈ t.rows, (inWindow s e r.1 && decide (rule.label r.1 = L)) = true →
      cellAt (selIdx t c) r = none) →
    v = 0 := by
  intro t s? e? rule zone κ f h c s e hc hs he L v hm hnone
  have hv := demand_bucket_value h hc hs he hm
  have hnil : (t.rows.filter (fun r => inWindow s e r.1 &&
      decide (rule.label r.1 = L))).filterMap (fun r => cellAt (selIdx t c) r) = [] := by
    rw [List.filterMap_eq_nil_iff]
    intro a ha
    rw [List.mem_filter] at ha
    exact hnone a ha.1 ha.2
  rw [hv, hnil]
  simp

/-- C10 witness: the all-missing January bucket of `tableC10` is present with
value 0. -/
theorem C10_witness : pairC10.2 = 0 :=
  C10_theorem tableC10 none none ruleME "DK_2" (1 / 2) frameC10 rfl "DK_2"
    ⟨2024, 1, 10, 0⟩ ⟨2024, 2, 10, 0⟩ (by decide) (by decide) (by decide)
    pairC10.1 pairC10.2 (List.get_mem frameC10.values 0 (by decide)) (by decide)

end DataLoader
